import Mathlib

/-!
Verification development for the resilient-fetch-and-media-mirror pipeline
(doocs/anything-md).  The TypeScript modules `src/r2.ts`, `src/fetch.ts` and
`src/config.ts` are shallowly embedded below: every definition is translated
from the corresponding source function; strings are worked with as `List Char`
through `String.data`, regular-expression scans are modelled by explicit
greedy scanners (the patterns involved contain no backtracking ambiguity),
and the effectful parts (HTTP fetch, R2 bucket) are modelled by explicit
outcome functions threaded as parameters.
-/

/-! ## Character classes

`jsWS` models the JavaScript `\s` class on the characters this pipeline can
meet (ASCII whitespace, NBSP, BOM). -/

/-- JavaScript `\s` (whitespace) character class, restricted to the common
whitespace code points. -/
def jsWS (c : Char) : Bool :=
  c == ' ' || c == '\t' || c == '\n' || c == '\r' || c == Char.ofNat 11 ||
  c == Char.ofNat 12 || c == Char.ofNat 160 || c == Char.ofNat 65279

/-- The apostrophe character (code point 39). -/
def aposChar : Char := Char.ofNat 39

/-- Character class `[^)\s"'<>\]]` used by the query-fragment tails in
`rewriteImageUrls` (src/r2.ts lines 127 and 129). -/
def tailChar (c : Char) : Bool :=
  !(c == ')' || c == '"' || c == aposChar || c == '<' || c == '>' || c == ']' || jsWS c)

/-- Character class `[^?\s"'<>)\]]` for the path part of `WECHAT_IMG_RE`
(src/r2.ts line 90). -/
def wePathChar (c : Char) : Bool :=
  !(c == '?' || c == '"' || c == aposChar || c == '<' || c == '>' || c == ')' ||
    c == ']' || jsWS c)

/-- Character class `[^&\s"'<>)\]]` for the optional query part of
`WECHAT_IMG_RE` (src/r2.ts line 90). -/
def weQueryChar (c : Char) : Bool :=
  !(c == '&' || c == '"' || c == aposChar || c == '<' || c == '>' || c == ')' ||
    c == ']' || jsWS c)

/-! ## Generic string helpers (models of JavaScript string primitives) -/

/-- Model of JavaScript `String.prototype.includes`: does `pat` occur as a
contiguous substring of the second argument? -/
def occursIn (pat : List Char) : List Char → Bool
  | [] => pat.isEmpty
  | c :: cs => pat.isPrefixOf (c :: cs) || occursIn pat cs

/-- Split a character list at the first occurrence of `sep` (a substring):
returns the part before and the part after, or `none` when `sep` does not
occur.  Used to model locating `"://"` in a URL string. -/
def splitFirst (sep : List Char) : List Char → Option (List Char × List Char)
  | [] => if sep.isEmpty then some ([], []) else none
  | c :: cs =>
    if sep.isPrefixOf (c :: cs) then some ([], (c :: cs).drop sep.length)
    else
      match splitFirst sep cs with
      | some (a, b) => some (c :: a, b)
      | none => none

/-- Split a character list on a separator character (model of
`String.prototype.split` with a one-character separator). -/
def splitOnChar (sep : Char) : List Char → List (List Char)
  | [] => [[]]
  | c :: cs =>
    if c == sep then [] :: splitOnChar sep cs
    else
      match splitOnChar sep cs with
      | [] => [[c]]
      | g :: gs => (c :: g) :: gs

/-! ## URL model

`parseURL` models the observable behaviour of the WHATWG `new URL(...)`
constructor for the fields this pipeline reads: `hostname` (lower-cased,
userinfo and port stripped), `pathname` (with `/` default) and `search`
(query string including its leading `?`).  A string the constructor rejects
is modelled as `none` — this is the `catch` branch of `isAllowedImageHost`
and `toR2Key` in src/r2.ts. -/

structure UrlModel where
  hostname : List Char
  pathname : List Char
  search : List Char
deriving DecidableEq

/-- URL scheme validity: one ASCII letter followed by letters, digits, `+`,
`-` or `.` (WHATWG scheme grammar). -/
def schemeOk (s : List Char) : Bool :=
  match s with
  | [] => false
  | c :: cs => c.isAlpha && cs.all (fun d => d.isAlphanum || d == '+' || d == '-' || d == '.')

/-- Forbidden host code points (WHATWG); a host containing one of these makes
the URL constructor throw. -/
def badHostChar (c : Char) : Bool :=
  c == ' ' || c == '\t' || c == '\n' || c == '\r' || c == '<' || c == '>' ||
  c == '[' || c == ']' || c == '\\' || c == '^' || c == '|' || c == Char.ofNat 0

/-- Keep only the authority segment after the last `@` (userinfo stripping of
the URL constructor). -/
def lastSegAfterAt (l : List Char) : List Char :=
  l.foldl (fun acc c => if c == '@' then [] else acc ++ [c]) []

/-- Model of `new URL(s)` restricted to the fields the pipeline reads.
Returns `none` when the constructor would throw (no `://`, invalid scheme,
empty host, forbidden host character). -/
def parseURL (s : String) : Option UrlModel :=
  match splitFirst ("://".data) s.data with
  | none => none
  | some (scheme, rest) =>
    if schemeOk scheme then
      let authority := rest.takeWhile (fun c => !(c == '/' || c == '?' || c == '#'))
      let afterAuth := rest.drop authority.length
      let hostPort := lastSegAfterAt authority
      let host := (hostPort.takeWhile (fun c => c != ':')).map Char.toLower
      if host.isEmpty || host.any badHostChar then none
      else
        let beforeFrag := afterAuth.takeWhile (fun c => c != '#')
        let path := beforeFrag.takeWhile (fun c => c != '?')
        let query := beforeFrag.drop path.length
        some { hostname := host
             , pathname := if path.isEmpty then ['/'] else path
             , search := query }
    else none

/-- Model of `url.searchParams.get(nm)`: first `name=value` pair of the query
string whose name equals `nm` (percent-decoding is not modelled; the format
tokens the pipeline reads contain no encoded characters). -/
def getParam (search : List Char) (nm : List Char) : Option (List Char) :=
  let q := match search with
    | c :: t => if c == '?' then t else c :: t
    | [] => []
  let pairs := (splitOnChar '&' q).filter (fun p => !p.isEmpty)
  match pairs.find? (fun p => p.takeWhile (fun c => c != '=') == nm) with
  | none => none
  | some p => some (((p.drop (p.takeWhile (fun c => c != '=')).length)).drop 1)

/-! ## Key derivation (src/r2.ts lines 21-83) -/

/-- The `MIME_TO_EXT` table of src/r2.ts lines 21-28, in object insertion
order (the order `Object.entries` iterates). -/
def MIME_TO_EXT : List (List Char × List Char) :=
  [("png".data, "png".data), ("gif".data, "gif".data), ("webp".data, "webp".data),
   ("svg".data, "svg".data), ("jpeg".data, "jpg".data), ("jpg".data, "jpg".data)]

/-- Exact-key lookup in `MIME_TO_EXT` (JavaScript `MIME_TO_EXT[fmt]`). -/
def lookupMime (fmt : List Char) : Option (List Char) :=
  (MIME_TO_EXT.find? (fun p => p.1 == fmt)).map (fun p => p.2)

/-- The path-hint scan of `inferExtension` (src/r2.ts lines 53-56): first
table entry whose `_hint` token occurs in the path. -/
def pathHintExt (path : List Char) : List Char :=
  match MIME_TO_EXT.find? (fun p => occursIn ('_' :: p.1) path) with
  | some p => p.2
  | none => "jpg".data

/-- Model of `inferExtension` (src/r2.ts lines 49-58).  An empty `wx_fmt`
value is falsy in JavaScript, so it falls through to the path hints; an
unknown non-empty value is returned as-is (`MIME_TO_EXT[fmt] ?? fmt`). -/
def inferExtension (u : UrlModel) : List Char :=
  match getParam u.search ("wx_fmt".data) with
  | some fmt => if fmt.isEmpty then pathHintExt u.pathname else (lookupMime fmt).getD fmt
  | none => pathHintExt u.pathname

/-- Replace every `.` with `_` (the `hostname.replace(/\./g, '_')` of
src/r2.ts line 75). -/
def dotsToUnderscores (l : List Char) : List Char :=
  l.map (fun c => if c == '.' then '_' else c)

/-- Strip one leading `/` (the `pathname.replace(/^\//, '')` of src/r2.ts
line 76). -/
def stripLeadingSlash (l : List Char) : List Char :=
  match l with
  | c :: t => if c == '/' then t else c :: t
  | [] => []

/-- Model of `toR2Key` (src/r2.ts lines 69-83).  The allow-list `hosts` is
the value of `allowedImageHosts(env)`, threaded as a parameter. -/
def toR2Key (originalUrl : String) (hosts : List String) : Option String :=
  match parseURL originalUrl with
  | none => none
  | some u =>
    if hosts.any (fun suf => suf.data.isSuffixOf u.hostname) then
      some ⟨dotsToUnderscores u.hostname ++ '/' ::
            (stripLeadingSlash u.pathname ++ '.' :: inferExtension u)⟩
    else none

/-- Model of `isAllowedImageHost` (src/r2.ts lines 35-42). -/
def isAllowedImageHost (url : String) (hosts : List String) : Bool :=
  match parseURL url with
  | none => false
  | some u => hosts.any (fun suf => suf.data.isSuffixOf u.hostname)

/-! ## Rewriter (src/r2.ts lines 114-133)

The two `result.replace(new RegExp(...), replacement)` calls are modelled by
an explicit left-to-right scanner.  Pattern `escaped(?:AMP[^)\s"'<>\]]+)*`
(with `AMP` being `&amp;` for the first pass and `&` for the second) contains
no backtracking ambiguity: the tail groups are greedy and nothing follows
them, so a match is the URL followed by the maximal sequence of
`AMP`-introduced runs of `tailChar` characters.  The scanners take explicit
fuel (initialised to the input length, which is always sufficient because
every step consumes at least one character) so that they are structurally
recursive and evaluate by kernel reduction. -/

/-- Greedy consumption of the `(?:AMP[tailChar]+)*` groups following a URL
match: repeatedly strip a literal `amp` followed by a non-empty run of
`tailChar` characters. -/
def consumeGroupsF (amp : List Char) : Nat → List Char → List Char
  | 0, s => s
  | fuel+1, s =>
    if amp.isPrefixOf s then
      let rest := s.drop amp.length
      let run := rest.takeWhile tailChar
      if run.isEmpty then s
      else consumeGroupsF amp fuel (rest.dropWhile tailChar)
    else s

/-- One global-replace pass: at each position, when the (always non-empty)
URL matches, emit `repl`, skip the URL and the greedy `amp`-groups after it,
and continue after the match, exactly as `String.prototype.replace` with a
global regex does.  The `url.isEmpty` guard is unreachable from
`rewriteImageUrls` (a derivable key implies a parseable, hence non-empty,
URL) and only totalises the model. -/
def replacePassF (url repl amp : List Char) : Nat → List Char → List Char
  | 0, s => s
  | _+1, [] => []
  | fuel+1, c :: cs =>
    if !url.isEmpty && url.isPrefixOf (c :: cs) then
      let rest := (c :: cs).drop url.length
      repl ++ replacePassF url repl amp fuel (consumeGroupsF amp rest.length rest)
    else c :: replacePassF url repl amp fuel cs

/-- One global-replace pass with fuel set to the input length. -/
def replacePass (url repl amp s : List Char) : List Char :=
  replacePassF url repl amp s.length s

/-- Body of the `for (const originalUrl of imageUrls)` loop of
`rewriteImageUrls` (src/r2.ts lines 119-130): skip URLs without a derivable
key, otherwise run the `&amp;`-pattern pass first and the plain-`&` pass on
its result. -/
def rewriteOne (text : List Char) (url : String) (base : List Char) (hosts : List String) :
    List Char :=
  match toR2Key url hosts with
  | none => text
  | some key =>
    let repl := base ++ '/' :: key.data
    replacePass url.data repl ("&".data)
      (replacePass url.data repl ("&amp;".data) text)

/-- Model of `rewriteImageUrls` (src/r2.ts lines 114-133).  `hosts` is the
value of `allowedImageHosts(env)`. -/
def rewriteImageUrls (markdown : String) (imageUrls : List String)
    (r2PublicUrl : String) (hosts : List String) : String :=
  if imageUrls.isEmpty then markdown
  else ⟨imageUrls.foldl (fun acc u => rewriteOne acc u r2PublicUrl.data hosts) markdown.data⟩

/-! ## Reference extractor (src/r2.ts lines 90-102)

`WECHAT_IMG_RE` is
`https?:\/\/mmbiz\.q(?:pic|logo)\.cn\/[^?\s"'<>)\]]+(?:\?[^&\s"'<>)\]]+)?`
with flags `gi`; the literal part is matched case-insensitively and the
matched text keeps the original casing, as `matchAll` reports it. -/

/-- Case-insensitive literal match: when the lower-cased input starts with
the lower-cased pattern, return the consumed original characters and the
remainder. -/
def ciStrip (pat : List Char) (s : List Char) : Option (List Char × List Char) :=
  match pat, s with
  | [], rest => some ([], rest)
  | _ :: _, [] => none
  | p :: ps, c :: cs =>
    if c.toLower == p.toLower then
      match ciStrip ps cs with
      | some (m, rest) => some (c :: m, rest)
      | none => none
    else none

/-- Match `https?://` case-insensitively (the `s` is optional; the regex
alternative with `s` is tried first, faithful to greedy `s?`). -/
def matchSchemeAt (s : List Char) : Option (List Char × List Char) :=
  match ciStrip ("https://".data) s with
  | some r => some r
  | none => ciStrip ("http://".data) s

/-- Match `mmbiz\.q(?:pic|logo)\.cn\/` case-insensitively. -/
def matchHostAt (s : List Char) : Option (List Char × List Char) :=
  match ciStrip ("mmbiz.q".data) s with
  | none => none
  | some (m1, r1) =>
    let tryAlt (alt : List Char) : Option (List Char × List Char) :=
      match ciStrip alt r1 with
      | none => none
      | some (m2, r2) =>
        match ciStrip (".cn/".data) r2 with
        | none => none
        | some (m3, r3) => some (m1 ++ m2 ++ m3, r3)
    match tryAlt ("pic".data) with
    | some r => some r
    | none => tryAlt ("logo".data)

/-- Try to match `WECHAT_IMG_RE` at the start of `s`: scheme and host
literals, a non-empty greedy run of path characters, then optionally `?` and
a non-empty greedy run of query characters.  Returns the matched text and
the remainder. -/
def matchWechatAt (s : List Char) : Option (List Char × List Char) :=
  match matchSchemeAt s with
  | none => none
  | some (ms, r1) =>
    match matchHostAt r1 with
    | none => none
    | some (mh, r2) =>
      let pth := r2.takeWhile wePathChar
      if pth.isEmpty then none
      else
        let r3 := r2.drop pth.length
        match r3 with
        | c :: rest =>
          if c == '?' then
            let q := rest.takeWhile weQueryChar
            if q.isEmpty then some (ms ++ mh ++ pth, r3)
            else some (ms ++ mh ++ pth ++ '?' :: q, rest.drop q.length)
          else some (ms ++ mh ++ pth, r3)
        | [] => some (ms ++ mh ++ pth, [])

/-- Leftmost, non-overlapping scan for `WECHAT_IMG_RE` matches, the
behaviour of `String.prototype.matchAll` with a global regex.  Fuel is the
input length; every step consumes at least one character. -/
def scanWechatF : Nat → List Char → List (List Char)
  | 0, _ => []
  | fuel+1, s =>
    match s with
    | [] => []
    | c :: cs =>
      match matchWechatAt (c :: cs) with
      | some (m, rest) => m :: scanWechatF fuel rest
      | none => scanWechatF fuel cs

/-- All `WECHAT_IMG_RE` matches of a string, in order. -/
def scanWechat (s : List Char) : List (List Char) :=
  scanWechatF s.length s

/-- First-occurrence deduplication, the behaviour of collecting into a
JavaScript `Set` and spreading it back into an array. -/
def dedupFirstAux (seen : List (List Char)) : List (List Char) → List (List Char)
  | [] => []
  | x :: xs =>
    if seen.contains x then dedupFirstAux seen xs
    else x :: dedupFirstAux (x :: seen) xs

/-- The trailing characters stripped by `u.replace(/[,.)\]]+$/, '')`
(src/r2.ts line 101). -/
def trimChar (c : Char) : Bool :=
  c == ',' || c == '.' || c == ')' || c == ']'

/-- Strip the maximal trailing run of `trimChar` characters. -/
def trimTrailing (l : List Char) : List Char :=
  (l.reverse.dropWhile trimChar).reverse

/-- Model of `collectImageUrls` (src/r2.ts lines 95-102): matches of both
inputs, deduplicated (raw, before trimming) in first-insertion order, then
each trimmed. -/
def collectImageUrls (html markdown : String) : List String :=
  ((dedupFirstAux [] (scanWechat html.data ++ scanWechat markdown.data)).map
    trimTrailing).map (fun l => (⟨l⟩ : String))

/-! ## Resilient fetcher (robustFetch, src/fetch.ts)

The network is modelled by a function from the attempt number (1-based) to
that attempt's outcome: either a thrown error of type `ε` or a `Response`.
Only the fields the retry loop and the mirror read are modelled.  Sleeping
(`sleep(baseDelay, attempt)`) is observable only as a delay, so the model
counts the executed sleeps instead; headers, redirect mode and the timeout
signal do not influence the retry control flow (a timeout surfaces as a
thrown error, i.e. an `err` outcome). -/

/-- Model of the `Response` fields read by the pipeline. -/
structure RespModel where
  status : Nat
  contentType : Option String
  body : List Nat
deriving DecidableEq

/-- `Response.ok`: status in the range 200-299. -/
def RespModel.ok (r : RespModel) : Bool :=
  200 ≤ r.status && r.status < 300

/-- Outcome of one fetch attempt: a thrown error or a response. -/
inductive FetchOutcome (ε : Type) where
  | err (e : ε)
  | resp (r : RespModel)
deriving DecidableEq

/-- Does the outcome model a thrown error? -/
def FetchOutcome.isErr {ε : Type} : FetchOutcome ε → Bool
  | .err _ => true
  | .resp _ => false

/-- The `RETRYABLE_STATUS` set of src/fetch.ts. -/
def RETRYABLE_STATUS : List Nat := [408, 429, 500, 502, 503, 504]

/-- Does the outcome model a response with a retryable status? -/
def FetchOutcome.isRetryableResp {ε : Type} : FetchOutcome ε → Bool
  | .err _ => false
  | .resp r => RETRYABLE_STATUS.contains r.status

/-- The retry loop of `robustFetch`: `rem` is the number of attempts still
allowed including the current one (so `0 < rem - 1` i.e. `rem > 1` means
`attempt < maxAttempts`), `attempt` the 1-based attempt number, `last` the
captured `lastError`, `sleeps` the number of back-off delays executed so
far.  Returns the result (`Except.error last` models the final `throw
lastError`, with `none` standing for the never-assigned case) paired with
the sleep count. -/
def goFetch {ε : Type} (f : Nat → FetchOutcome ε) :
    Nat → Nat → Option ε → Nat → (Except (Option ε) RespModel) × Nat
  | 0, _, last, sleeps => (.error last, sleeps)
  | rem+1, attempt, last, sleeps =>
    match f attempt with
    | .resp r =>
      if RETRYABLE_STATUS.contains r.status && !(rem == 0) then
        goFetch f rem (attempt+1) last (sleeps+1)
      else (.ok r, sleeps)
    | .err e =>
      goFetch f rem (attempt+1) (some e) (if rem == 0 then sleeps else sleeps+1)

/-- Model of `robustFetch` (src/fetch.ts lines 118-154), restricted to its
retry control flow over the attempt outcomes `f`. -/
def robustFetch {ε : Type} (f : Nat → FetchOutcome ε) (maxAttempts : Nat) :
    (Except (Option ε) RespModel) × Nat :=
  goFetch f maxAttempts 1 none 0

/-! ## Configuration helpers (src/config.ts)

Environment variables are modelled as `Option Nat` (a missing or
non-numeric variable is `none`; `Number(x) || d` also treats `0` as absent,
hence the explicit `some 0` cases). -/

/-- Model of `imageTtlMs` (src/config.ts lines 27-30). -/
def imageTtlMs (envHours : Option Nat) : Nat :=
  (match envHours with
   | none => 8
   | some 0 => 8
   | some (n+1) => n+1) * 60 * 60 * 1000

/-- Model of `imageCacheMaxAge` (src/config.ts lines 38-41). -/
def imageCacheMaxAge (envHours : Option Nat) : Nat :=
  (match envHours with
   | none => 8
   | some 0 => 8
   | some (n+1) => n+1) * 60 * 60

/-- Model of `imageUploadConcurrency` (src/config.ts lines 33-35). -/
def imageUploadConcurrency (envVal : Option Nat) : Nat :=
  match envVal with
  | none => 5
  | some 0 => 5
  | some (n+1) => n+1

/-! ## Media mirror (uploadImages, src/r2.ts lines 155-230)

The R2 bucket and the per-URL network are modelled by the functions of
`MirrorCfg`: `headExists` is the truthiness of `bucket.head(key)`,
`fetchResult` the outcome of the `robustFetch` download (`Except.error`
models a thrown error, which rejects the item's promise), and `putRejects`
models a rejection of `bucket.put` (or of `res.arrayBuffer()`) after a
successful download.  `Promise.allSettled` guarantees every item of a
window settles; a rejected item is counted as failed by the loop over the
settled results, so each item contributes exactly one counter increment. -/

structure MirrorCfg where
  hosts : List String
  headExists : String → Bool
  fetchResult : String → Except Unit RespModel
  putRejects : String → Bool
  concurrency : Nat
  nowMs : Nat
  ttlMs : Nat
  cacheMaxAge : Nat

/-- The record written by `bucket.put` (src/r2.ts lines 202-212): key,
bytes, HTTP metadata and custom metadata. -/
structure PutRecord where
  key : String
  body : List Nat
  contentType : String
  cacheControl : String
  expiresAt : Nat
  originalUrl : String
  extension : String
deriving DecidableEq

/-- How one item settles: which counter it increments. -/
inductive ItemCount where
  | uploaded
  | skipped
  | failed
deriving DecidableEq

/-- Model of `extFromContentType` (src/r2.ts lines 140-145): first table
fragment contained in the content type. -/
def extFromContentType (ct : String) : String :=
  match MIME_TO_EXT.find? (fun p => occursIn p.1 ct.data) with
  | some p => (⟨p.2⟩ : String)
  | none => "jpg"

/-- One item of a mirror window (the async closure of src/r2.ts lines
172-216): returns the counter the item increments and the record handed to
`bucket.put` when a put is attempted. -/
def processItem (cfg : MirrorCfg) (url : String) : ItemCount × Option PutRecord :=
  match toR2Key url cfg.hosts with
  | none => (.skipped, none)
  | some key =>
    if cfg.headExists key then (.skipped, none)
    else
      match cfg.fetchResult url with
      | .error _ => (.failed, none)
      | .ok res =>
        if !res.ok then (.failed, none)
        else
          let ct := res.contentType.getD "image/jpeg"
          let pr : PutRecord :=
            { key := key
            , body := res.body
            , contentType := ct
            , cacheControl := "public, max-age=" ++ toString cfg.cacheMaxAge
            , expiresAt := cfg.nowMs + cfg.ttlMs
            , originalUrl := url
            , extension := extFromContentType ct }
          if cfg.putRejects key then (.failed, some pr) else (.uploaded, some pr)

/-- Aggregate upload statistics (the `stats` object of src/r2.ts line 160). -/
structure BatchStats where
  uploaded : Nat
  skipped : Nat
  failed : Nat
deriving DecidableEq

/-- Add one settled item to the statistics. -/
def countItem (st : BatchStats) (c : ItemCount) : BatchStats :=
  match c with
  | .uploaded => { st with uploaded := st.uploaded + 1 }
  | .skipped => { st with skipped := st.skipped + 1 }
  | .failed => { st with failed := st.failed + 1 }

/-- Settle one concurrency window and accumulate its counters (the window's
tasks run concurrently, but each counter is incremented exactly once per
item, so the aggregate is order-independent and modelled as a fold). -/
def runBatch (cfg : MirrorCfg) (st : BatchStats) (batch : List String) : BatchStats :=
  batch.foldl (fun s url => countItem s (processItem cfg url).1) st

/-- Split into fixed-size windows of `n` (the `for (let i = 0; ...; i +=
concurrency)` slicing of src/r2.ts lines 168-169).  Fuel makes the
recursion structural; with fuel at least the list length the windows are
exactly the consecutive `n`-sized slices. -/
def toBatchesF (n : Nat) : Nat → List String → List (List String)
  | _, [] => []
  | 0, l => [l]
  | fuel+1, x :: xs => (x :: xs.take (n-1)) :: toBatchesF n fuel (xs.drop (n-1))

/-- Model of `uploadImages` (src/r2.ts lines 155-230): process the URL list
in windows of `cfg.concurrency`, each window settling completely before the
next starts. -/
def uploadImages (cfg : MirrorCfg) (urls : List String) : BatchStats :=
  if urls.isEmpty then ⟨0, 0, 0⟩
  else (toBatchesF cfg.concurrency urls.length urls).foldl (runBatch cfg) ⟨0, 0, 0⟩

/-! ## Small structural facts -/

/-- Rebuilding a string from its character data is the identity. -/
theorem string_mk_data (s : String) : (⟨s.data⟩ : String) = s := rfl

/-! ## Claim C10: malformed URLs -/

/-- C10: for every input string that cannot be parsed as a URL, `toR2Key`
returns `none` and `isAllowedImageHost` returns `false`.  Both models are
total functions, so neither ever raises: the `catch` branches of the source
are exactly these two `none`/`false` results. -/
theorem toR2Key_unparseable_none (s : String) (hosts : List String)
    (h : parseURL s = none) :
    toR2Key s hosts = none ∧ isAllowedImageHost s hosts = false := by
  constructor
  · unfold toR2Key
    rw [h]
  · unfold isAllowedImageHost
    rw [h]

/-- Witness for C10 at the concrete malformed input. -/
theorem toR2Key_unparseable_none_witness :
    toR2Key "not a url" ["qpic.cn"] = none
    ∧ isAllowedImageHost "not a url" ["qpic.cn"] = false :=
  toR2Key_unparseable_none "not a url" ["qpic.cn"] (by decide)

/-! ## Claim C3: allow-list rejection is a silent skip -/

/-- C3: a URL whose parsed host ends with no allow-listed suffix derives no
key (`none`, not an error); the mirror counts it as skipped and never
uploads it; and the rewriter leaves the text unchanged for it — its loop
iteration is the identity, so dropping it from the URL list changes
nothing. -/
theorem toR2Key_disallowed_skipped (url : String) (hosts : List String) (u : UrlModel)
    (hp : parseURL url = some u)
    (hs : ∀ suf ∈ hosts, suf.data.isSuffixOf u.hostname = false) :
    toR2Key url hosts = none
    ∧ (∀ cfg : MirrorCfg, cfg.hosts = hosts →
        processItem cfg url = (.skipped, none) ∧ uploadImages cfg [url] = ⟨0, 1, 0⟩)
    ∧ (∀ (text base : List Char), rewriteOne text url base hosts = text)
    ∧ (∀ (md : String) (rest : List String) (pub : String),
        rewriteImageUrls md (url :: rest) pub hosts = rewriteImageUrls md rest pub hosts) := by
  have hany : hosts.any (fun suf => suf.data.isSuffixOf u.hostname) = false := by
    rw [List.any_eq_false]
    intro x hx
    simp [hs x hx]
  have hkey : toR2Key url hosts = none := by
    unfold toR2Key
    rw [hp]
    simp [hany]
  have hone : ∀ (t b : List Char), rewriteOne t url b hosts = t := by
    intro t b
    unfold rewriteOne
    rw [hkey]
  refine ⟨hkey, ?_, hone, ?_⟩
  · intro cfg hc
    have hpi : processItem cfg url = (.skipped, none) := by
      unfold processItem
      rw [hc, hkey]
    refine ⟨hpi, ?_⟩
    simp [uploadImages, toBatchesF, runBatch, countItem, hpi]
  · intro md rest pub
    unfold rewriteImageUrls
    cases rest with
    | nil => simp [hone]
    | cons r rs => simp [hone]

/-- Mirror configuration used by the C3 witness. -/
def mirrorCfgC3 : MirrorCfg :=
  { hosts := ["qpic.cn"]
  , headExists := fun _ => false
  , fetchResult := fun _ => .ok { status := 200, contentType := none, body := [] }
  , putRejects := fun _ => false
  , concurrency := 5, nowMs := 0, ttlMs := 1, cacheMaxAge := 1 }

/-- Witness for C3 at a concrete non-allow-listed URL. -/
theorem toR2Key_disallowed_skipped_witness :
    toR2Key "https://evil.example/img" ["qpic.cn"] = none
    ∧ uploadImages mirrorCfgC3 ["https://evil.example/img"] = ⟨0, 1, 0⟩
    ∧ rewriteOne "some text".data "https://evil.example/img" "b".data ["qpic.cn"]
        = "some text".data :=
  let T := toR2Key_disallowed_skipped "https://evil.example/img" ["qpic.cn"]
    ⟨"evil.example".data, "/img".data, []⟩ (by decide) (by decide)
  ⟨T.1, (T.2.1 mirrorCfgC3 rfl).2, T.2.2.1 "some text".data "b".data⟩

/-! ## Claim C4: derived key shape and extension priority -/

/-- C4: for every allow-listed URL the derived key is
`{prefix}/{path}.{extension}` with `prefix` the host with every dot replaced
by an underscore and `path` the URL path without its leading slash; the
extension prefers a known format query parameter mapped through the table,
then a path-embedded `_hint` token, then defaults to `jpg`; and the
specification's concrete example derives the expected key. -/
theorem toR2Key_allowed_key_shape (url : String) (hosts : List String) (u : UrlModel)
    (hp : parseURL url = some u)
    (hs : hosts.any (fun suf => suf.data.isSuffixOf u.hostname) = true) :
    toR2Key url hosts
      = some ⟨dotsToUnderscores u.hostname ++ '/' ::
              (stripLeadingSlash u.pathname ++ '.' :: inferExtension u)⟩
    ∧ (∀ fmt e, getParam u.search ("wx_fmt".data) = some fmt → fmt.isEmpty = false →
        lookupMime fmt = some e → inferExtension u = e)
    ∧ (getParam u.search ("wx_fmt".data) = none →
        ∀ p, MIME_TO_EXT.find? (fun q => occursIn ('_' :: q.1) u.pathname) = some p →
          inferExtension u = p.2)
    ∧ (getParam u.search ("wx_fmt".data) = none →
        MIME_TO_EXT.find? (fun q => occursIn ('_' :: q.1) u.pathname) = none →
          inferExtension u = "jpg".data)
    ∧ toR2Key "https://mmbiz.qpic.cn/sz_mmbiz_png/abc/640?wx_fmt=png" ["qpic.cn"]
        = some "mmbiz_qpic_cn/sz_mmbiz_png/abc/640.png" := by
  refine ⟨?_, ?_, ?_, ?_, by decide⟩
  · unfold toR2Key
    rw [hp]
    simp [hs]
  · intro fmt e hf hne hl
    unfold inferExtension
    rw [hf]
    simp [hne, hl]
  · intro hf p hfind
    unfold inferExtension pathHintExt
    rw [hf, hfind]
  · intro hf hfind
    unfold inferExtension pathHintExt
    rw [hf, hfind]

/-- Witness for C4 at the specification's example URL. -/
theorem toR2Key_allowed_key_shape_witness :
    toR2Key "https://mmbiz.qpic.cn/sz_mmbiz_png/abc/640?wx_fmt=png" ["qpic.cn"]
      = some ⟨dotsToUnderscores ("mmbiz.qpic.cn".data) ++ '/' ::
              (stripLeadingSlash ("/sz_mmbiz_png/abc/640".data) ++ '.' ::
                inferExtension ⟨"mmbiz.qpic.cn".data, "/sz_mmbiz_png/abc/640".data,
                  "?wx_fmt=png".data⟩)⟩ :=
  (toR2Key_allowed_key_shape "https://mmbiz.qpic.cn/sz_mmbiz_png/abc/640?wx_fmt=png"
    ["qpic.cn"] ⟨"mmbiz.qpic.cn".data, "/sz_mmbiz_png/abc/640".data, "?wx_fmt=png".data⟩
    (by decide) (by decide)).1

/-! ## Claim C9: store-write metadata -/

/-- C9: for every URL whose download succeeds, the attempted store write
carries the response's content type (defaulting to `image/jpeg`), a
cache-control directive embedding the configured max-age, and custom
metadata with the absolute expiry `now + TTL`, the original URL and the
extension inferred from the content type; when the put does not reject, the
item is counted as uploaded.  The configured TTL defaults to 8 hours. -/
theorem uploadImages_put_metadata (cfg : MirrorCfg) (url key : String) (res : RespModel)
    (hk : toR2Key url cfg.hosts = some key)
    (hh : cfg.headExists key = false)
    (hf : cfg.fetchResult url = .ok res)
    (ho : res.ok = true) :
    (processItem cfg url).2
      = some { key := key
             , body := res.body
             , contentType := res.contentType.getD "image/jpeg"
             , cacheControl := "public, max-age=" ++ toString cfg.cacheMaxAge
             , expiresAt := cfg.nowMs + cfg.ttlMs
             , originalUrl := url
             , extension := extFromContentType (res.contentType.getD "image/jpeg") }
    ∧ (cfg.putRejects key = false → (processItem cfg url).1 = .uploaded)
    ∧ imageTtlMs none = 8 * 60 * 60 * 1000
    ∧ imageCacheMaxAge none = 8 * 60 * 60 := by
  have hpi : ∀ pj, cfg.putRejects key = pj → processItem cfg url
      = (if pj then ItemCount.failed else ItemCount.uploaded,
         some { key := key
              , body := res.body
              , contentType := res.contentType.getD "image/jpeg"
              , cacheControl := "public, max-age=" ++ toString cfg.cacheMaxAge
              , expiresAt := cfg.nowMs + cfg.ttlMs
              , originalUrl := url
              , extension := extFromContentType (res.contentType.getD "image/jpeg") }) := by
    intro pj hr
    cases pj <;> simp [processItem, hk, hh, hf, ho, hr]
  refine ⟨?_, ?_, rfl, rfl⟩
  · cases hr : cfg.putRejects key <;> simp [hpi _ hr]
  · intro hpr
    simp [hpi false hpr]

/-- Mirror configuration used by the C9 witness. -/
def mirrorCfgC9 : MirrorCfg :=
  { hosts := ["qpic.cn"]
  , headExists := fun _ => false
  , fetchResult := fun _ => .ok { status := 200, contentType := some "image/png", body := [7, 8] }
  , putRejects := fun _ => false
  , concurrency := 5, nowMs := 1000, ttlMs := 500, cacheMaxAge := 60 }

/-- Witness for C9 at a concrete successful download. -/
theorem uploadImages_put_metadata_witness :
    (processItem mirrorCfgC9 "https://mmbiz.qpic.cn/img/1").2
      = some { key := "mmbiz_qpic_cn/img/1.jpg"
             , body := [7, 8]
             , contentType := "image/png"
             , cacheControl := "public, max-age=60"
             , expiresAt := 1500
             , originalUrl := "https://mmbiz.qpic.cn/img/1"
             , extension := "png" }
    ∧ (processItem mirrorCfgC9 "https://mmbiz.qpic.cn/img/1").1 = .uploaded :=
  let T := uploadImages_put_metadata mirrorCfgC9 "https://mmbiz.qpic.cn/img/1"
    "mmbiz_qpic_cn/img/1.jpg" { status := 200, contentType := some "image/png", body := [7, 8] }
    (by decide) rfl rfl rfl
  ⟨T.1, T.2.1 rfl⟩

/-! ## Claims C1 and C2: the retry loop of robustFetch -/

/-- When every attempt in the remaining window throws, the loop ends by
raising the error captured on the last attempt. -/
theorem goFetch_all_err {ε : Type} (f : Nat → FetchOutcome ε) :
    ∀ (rem attempt : Nat) (last : Option ε) (sleeps : Nat),
      (∀ k, k ≤ attempt + rem → attempt ≤ k → (f k).isErr = true) →
      ∀ e, f (attempt + rem) = .err e →
      (goFetch f (rem+1) attempt last sleeps).1 = .error (some e) := by
  intro rem
  induction rem with
  | zero =>
    intro attempt last sleeps hall e he
    have he' : f attempt = .err e := by simpa using he
    simp [goFetch, he']
  | succ n ih =>
    intro attempt last sleeps hall e he
    have h0 : (f attempt).isErr = true := hall attempt (by omega) (by omega)
    obtain ⟨e0, he0⟩ : ∃ e0, f attempt = .err e0 := by
      cases hf : f attempt with
      | err x => exact ⟨x, rfl⟩
      | resp r => rw [hf] at h0; simp [FetchOutcome.isErr] at h0
    have step : goFetch f (n+1+1) attempt last sleeps
        = goFetch f (n+1) (attempt+1) (some e0) (sleeps+1) := by
      simp [goFetch, he0]
    rw [step]
    exact ih (attempt+1) (some e0) (sleeps+1)
      (fun k hk1 hk2 => hall k (by omega) (by omega)) e (by
        have : attempt + 1 + n = attempt + (n+1) := by omega
        rw [this]; exact he)

/-- When every attempt in the remaining window yields a retryable response,
the loop sleeps once per retry and returns the final attempt's response. -/
theorem goFetch_all_retryable {ε : Type} (f : Nat → FetchOutcome ε) :
    ∀ (rem attempt : Nat) (last : Option ε) (sleeps : Nat),
      (∀ k, k ≤ attempt + rem → attempt ≤ k → (f k).isRetryableResp = true) →
      ∀ r, f (attempt + rem) = .resp r →
      goFetch f (rem+1) attempt last sleeps = (.ok r, sleeps + rem) := by
  intro rem
  induction rem with
  | zero =>
    intro attempt last sleeps hall r hr
    have hr' : f attempt = .resp r := by simpa using hr
    simp [goFetch, hr']
  | succ n ih =>
    intro attempt last sleeps hall r hr
    have h0 : (f attempt).isRetryableResp = true := hall attempt (by omega) (by omega)
    obtain ⟨r0, hr0, hret⟩ :
        ∃ r0, f attempt = .resp r0 ∧ RETRYABLE_STATUS.contains r0.status = true := by
      cases hf : f attempt with
      | err x => rw [hf] at h0; simp [FetchOutcome.isRetryableResp] at h0
      | resp q =>
        refine ⟨q, rfl, ?_⟩
        rw [hf] at h0
        simpa [FetchOutcome.isRetryableResp] using h0
    have hret2 : r0.status ∈ RETRYABLE_STATUS := by simpa using hret
    have step : goFetch f (n+1+1) attempt last sleeps
        = goFetch f (n+1) (attempt+1) last (sleeps+1) := by
      simp [goFetch, hr0, hret2]
    rw [step]
    have := ih (attempt+1) last (sleeps+1)
      (fun k hk1 hk2 => hall k (by omega) (by omega)) r (by
        have : attempt + 1 + n = attempt + (n+1) := by omega
        rw [this]; exact hr)
    rw [this]
    have : sleeps + 1 + n = sleeps + (n + 1) := by omega
    rw [this]

/-- C1: when every attempt ends in a network-level exception, `robustFetch`
raises the exception captured on the last attempt; when the attempts are
exhausted by retryable HTTP statuses instead, it returns the last response
rather than raising; in particular with two attempts both answering 503 the
final 503 response is returned together with a single back-off delay. -/
theorem robustFetch_exhaustion_asymmetry {ε : Type} (f : Nat → FetchOutcome ε)
    (maxAttempts : Nat) (hmax : 1 ≤ maxAttempts) :
    ((∀ k, k ≤ maxAttempts → 1 ≤ k → (f k).isErr = true) →
      ∀ e, f maxAttempts = .err e → (robustFetch f maxAttempts).1 = .error (some e))
    ∧ ((∀ k, k ≤ maxAttempts → 1 ≤ k → (f k).isRetryableResp = true) →
      ∀ r, f maxAttempts = .resp r → robustFetch f maxAttempts = (.ok r, maxAttempts - 1))
    ∧ (∀ (g : Nat → FetchOutcome ε) (r : RespModel), r.status = 503 →
        (∀ a, g a = .resp r) → robustFetch g 2 = (.ok r, 1)) := by
  obtain ⟨m, rfl⟩ : ∃ m, maxAttempts = m + 1 := ⟨maxAttempts - 1, by omega⟩
  refine ⟨?_, ?_, ?_⟩
  · intro hall e he
    unfold robustFetch
    exact goFetch_all_err f m 1 none 0
      (fun k hk1 hk2 => hall k (by omega) (by omega)) e (by
        have : 1 + m = m + 1 := by omega
        rw [this]; exact he)
  · intro hall r hr
    unfold robustFetch
    have := goFetch_all_retryable f m 1 none 0
      (fun k hk1 hk2 => hall k (by omega) (by omega)) r (by
        have : 1 + m = m + 1 := by omega
        rw [this]; exact hr)
    simpa using this
  · intro g r hst hg
    unfold robustFetch
    have := goFetch_all_retryable g 1 1 none 0
      (fun k hk1 hk2 => by simp [hg k, FetchOutcome.isRetryableResp, hst, RETRYABLE_STATUS])
      r (hg 2)
    simpa using this

/-- Witness for C1: a persistent exception raises the last captured error; a
persistent 503 across two attempts returns the final 503 response. -/
theorem robustFetch_exhaustion_asymmetry_witness :
    (robustFetch (fun a => (.err a : FetchOutcome Nat)) 2).1 = .error (some 2)
    ∧ robustFetch (fun _ => (.resp ⟨503, none, []⟩ : FetchOutcome Nat)) 2
        = (.ok ⟨503, none, []⟩, 1) :=
  ⟨(robustFetch_exhaustion_asymmetry (fun a => (.err a : FetchOutcome Nat)) 2
      (by omega)).1 (fun k _ _ => rfl) 2 rfl,
   (robustFetch_exhaustion_asymmetry (fun a => (.err a : FetchOutcome Nat)) 2
      (by omega)).2.2 (fun _ => .resp ⟨503, none, []⟩) ⟨503, none, []⟩ rfl (fun a => rfl)⟩

/-- C2: a response is returned immediately (with no further delay) when its
status is outside the retryable set or when it is the final attempt; on a
retryable status with attempts remaining the loop sleeps once and retries;
consequently the sequence 503, 503, 200 under three attempts returns the
200 response after exactly two retry delays. -/
theorem robustFetch_retry_loop {ε : Type} (f : Nat → FetchOutcome ε) :
    (∀ (rem attempt : Nat) (last : Option ε) (sleeps : Nat) (r : RespModel),
      f attempt = .resp r → RETRYABLE_STATUS.contains r.status = false →
      goFetch f (rem+1) attempt last sleeps = (.ok r, sleeps))
    ∧ (∀ (attempt : Nat) (last : Option ε) (sleeps : Nat) (r : RespModel),
      f attempt = .resp r → goFetch f 1 attempt last sleeps = (.ok r, sleeps))
    ∧ (∀ (rem attempt : Nat) (last : Option ε) (sleeps : Nat) (r : RespModel),
      f attempt = .resp r → RETRYABLE_STATUS.contains r.status = true →
      goFetch f (rem+2) attempt last sleeps = goFetch f (rem+1) (attempt+1) last (sleeps+1))
    ∧ (∀ g : Nat → FetchOutcome ε,
      (∀ a, a ≤ 2 → g a = .resp ⟨503, none, []⟩) →
      (∀ a, 3 ≤ a → g a = .resp ⟨200, none, []⟩) →
      robustFetch g 3 = (.ok ⟨200, none, []⟩, 2)) := by
  refine ⟨?_, ?_, ?_, ?_⟩
  · intro rem attempt last sleeps r hf hnr
    have hnr2 : r.status ∉ RETRYABLE_STATUS := by simpa using hnr
    simp [goFetch, hf, hnr2]
  · intro attempt last sleeps r hf
    simp [goFetch, hf]
  · intro rem attempt last sleeps r hf hret
    have hret3 : r.status ∈ RETRYABLE_STATUS := by simpa using hret
    simp [goFetch, hf, hret3]
  · intro g h1 h2
    unfold robustFetch
    have e1 : g 1 = .resp ⟨503, none, []⟩ := h1 1 (by omega)
    have e2 : g 2 = .resp ⟨503, none, []⟩ := h1 2 (by omega)
    have e3 : g 3 = .resp ⟨200, none, []⟩ := h2 3 (by omega)
    simp [goFetch, e1, e2, e3, RETRYABLE_STATUS]

/-- Witness for C2 at the concrete attempt sequence 503, 503, 200. -/
theorem robustFetch_retry_loop_witness :
    robustFetch
      (fun a => if a ≤ 2 then (.resp ⟨503, none, []⟩ : FetchOutcome Nat)
                else .resp ⟨200, none, []⟩) 3
      = (.ok ⟨200, none, []⟩, 2) :=
  (robustFetch_retry_loop
    (fun a => if a ≤ 2 then (.resp ⟨503, none, []⟩ : FetchOutcome Nat)
              else .resp ⟨200, none, []⟩)).2.2.2
    (fun a => if a ≤ 2 then (.resp ⟨503, none, []⟩ : FetchOutcome Nat)
              else .resp ⟨200, none, []⟩)
    (fun a ha => if_pos ha) (fun a ha => if_neg (by omega))

/-! ## Claim C8: every item is counted exactly once -/

/-- Total of the three counters of `BatchStats`. -/
def statsTotal (st : BatchStats) : Nat :=
  st.uploaded + st.skipped + st.failed

/-- Concatenation of the concurrency windows. -/
def flattenBatches : List (List String) → List String
  | [] => []
  | b :: bs => b ++ flattenBatches bs

/-- Each settled item increments exactly one counter. -/
theorem countItem_total (st : BatchStats) (c : ItemCount) :
    statsTotal (countItem st c) = statsTotal st + 1 := by
  cases c <;> simp [countItem, statsTotal] <;> omega

/-- One window adds exactly its size to the counter total. -/
theorem runBatch_total (cfg : MirrorCfg) :
    ∀ (batch : List String) (st : BatchStats),
      statsTotal (runBatch cfg st batch) = statsTotal st + batch.length := by
  intro batch
  induction batch with
  | nil => intro st; rfl
  | cons x xs ih =>
    intro st
    have hstep : runBatch cfg st (x :: xs)
        = runBatch cfg (countItem st (processItem cfg x).1) xs := rfl
    rw [hstep, ih, countItem_total]
    simp
    omega

/-- The windows cover the URL list exactly, for every fuel value. -/
theorem toBatchesF_flatten (n : Nat) :
    ∀ (fuel : Nat) (l : List String), flattenBatches (toBatchesF n fuel l) = l := by
  intro fuel
  induction fuel with
  | zero =>
    intro l
    cases l with
    | nil => rfl
    | cons x xs => simp [toBatchesF, flattenBatches]
  | succ m ih =>
    intro l
    cases l with
    | nil => rfl
    | cons x xs =>
      simp [toBatchesF, flattenBatches, ih]

/-- Folding the windows accumulates the total length of their contents. -/
theorem foldl_runBatch_total (cfg : MirrorCfg) :
    ∀ (batches : List (List String)) (st : BatchStats),
      statsTotal (batches.foldl (runBatch cfg) st)
        = statsTotal st + (flattenBatches batches).length := by
  intro batches
  induction batches with
  | nil => intro st; simp [flattenBatches]
  | cons b bs ih =>
    intro st
    have hstep : (b :: bs).foldl (runBatch cfg) st = bs.foldl (runBatch cfg) (runBatch cfg st b) := rfl
    rw [hstep, ih, runBatch_total]
    simp [flattenBatches]
    omega

/-- C8: the mirror counts every item exactly once —
`uploaded + skipped + failed` equals the batch size for every outcome
environment — and an item whose promise rejects (a thrown download error,
or a store-write rejection after a successful download) is counted as
failed; the per-item counting means no item's failure prevents its window
siblings from being counted. -/
theorem uploadImages_counts_total (cfg : MirrorCfg) (urls : List String) :
    (uploadImages cfg urls).uploaded + (uploadImages cfg urls).skipped
        + (uploadImages cfg urls).failed = urls.length
    ∧ (∀ url key, toR2Key url cfg.hosts = some key → cfg.headExists key = false →
        cfg.fetchResult url = .error () → (processItem cfg url).1 = .failed)
    ∧ (∀ url key res, toR2Key url cfg.hosts = some key → cfg.headExists key = false →
        cfg.fetchResult url = .ok res → res.ok = true → cfg.putRejects key = true →
        (processItem cfg url).1 = .failed) := by
  refine ⟨?_, ?_, ?_⟩
  · show statsTotal (uploadImages cfg urls) = urls.length
    cases urls with
    | nil => rfl
    | cons x xs =>
      have h := foldl_runBatch_total cfg
        (toBatchesF cfg.concurrency (x :: xs).length (x :: xs)) ⟨0, 0, 0⟩
      rw [toBatchesF_flatten] at h
      simpa [uploadImages, statsTotal] using h
  · intro url key hk hh hf
    simp [processItem, hk, hh, hf]
  · intro url key res hk hh hf ho hp
    simp [processItem, hk, hh, hf, ho, hp]

/-- Mirror configuration used by the C8 witness: one uploadable URL, one
non-allow-listed URL, one URL whose download throws. -/
def mirrorCfgC8 : MirrorCfg :=
  { hosts := ["qpic.cn"]
  , headExists := fun _ => false
  , fetchResult := fun url =>
      if url = "https://mmbiz.qpic.cn/c" then .error ()
      else .ok { status := 200, contentType := some "image/png", body := [1] }
  , putRejects := fun _ => false
  , concurrency := 2, nowMs := 0, ttlMs := 1, cacheMaxAge := 1 }

/-- Witness for C8 on a concrete three-URL batch with a mid-batch failure. -/
theorem uploadImages_counts_total_witness :
    ((uploadImages mirrorCfgC8
        ["https://mmbiz.qpic.cn/a", "https://bad.example/b", "https://mmbiz.qpic.cn/c"]).uploaded
      + (uploadImages mirrorCfgC8
        ["https://mmbiz.qpic.cn/a", "https://bad.example/b", "https://mmbiz.qpic.cn/c"]).skipped
      + (uploadImages mirrorCfgC8
        ["https://mmbiz.qpic.cn/a", "https://bad.example/b", "https://mmbiz.qpic.cn/c"]).failed
      = 3)
    ∧ (processItem mirrorCfgC8 "https://mmbiz.qpic.cn/c").1 = .failed :=
  let T := uploadImages_counts_total mirrorCfgC8
    ["https://mmbiz.qpic.cn/a", "https://bad.example/b", "https://mmbiz.qpic.cn/c"]
  ⟨T.1, T.2.1 "https://mmbiz.qpic.cn/c" "mmbiz_qpic_cn/c.jpg" (by decide) rfl rfl⟩

/-! ## Rewriter lemmas for claims C5 and C6 -/

/-- Does the list fail to continue a `tailChar` run (empty, or headed by a
character outside the class)?  Decidable form of the stopping condition of
the greedy fragment runs. -/
def blocksTailRun : List Char → Bool
  | [] => true
  | c :: _ => !tailChar c

/-- A pattern that occurs nowhere is never matched: a replace pass is the
identity, for every fuel value. -/
theorem replacePassF_id (url repl amp : List Char) :
    ∀ (fuel : Nat) (s : List Char), occursIn url s = false →
      replacePassF url repl amp fuel s = s := by
  intro fuel
  induction fuel with
  | zero => intro s _; rfl
  | succ m ih =>
    intro s h
    cases s with
    | nil => rfl
    | cons c cs =>
      have h' : (url.isPrefixOf (c :: cs) || occursIn url cs) = false := h
      rw [Bool.or_eq_false_iff] at h'
      simp [replacePassF, h'.1, ih cs h'.2]

/-- Identity form of one replace pass under non-occurrence. -/
theorem replacePass_id (url repl amp s : List Char) (h : occursIn url s = false) :
    replacePass url repl amp s = s :=
  replacePassF_id url repl amp s.length s h

/-- When `amp` is not a prefix, the group consumer leaves the input
untouched, for every fuel value. -/
theorem consumeGroupsF_not_pref (amp s : List Char)
    (h : amp.isPrefixOf s = false) : ∀ fuel, consumeGroupsF amp fuel s = s := by
  intro fuel
  cases fuel with
  | zero => rfl
  | succ m => simp [consumeGroupsF, h]

/-- Splitting a `takeWhile`/`dropWhile` around an all-satisfying block
followed by a blocked continuation. -/
theorem takeWhile_tail_append :
    ∀ (l₁ l₂ : List Char), l₁.all tailChar = true → blocksTailRun l₂ = true →
      (l₁ ++ l₂).takeWhile tailChar = l₁ ∧ (l₁ ++ l₂).dropWhile tailChar = l₂ := by
  intro l₁
  induction l₁ with
  | nil =>
    intro l₂ _ hb
    cases l₂ with
    | nil => exact ⟨rfl, rfl⟩
    | cons c cs =>
      have hc : tailChar c = false := by
        have : (!tailChar c) = true := hb
        simp at this
        simp [this]
      constructor
      · simp [List.takeWhile_cons, hc]
      · simp [List.dropWhile_cons, hc]
  | cons a l ih =>
    intro l₂ hall hb
    rw [List.all_cons, Bool.and_eq_true] at hall
    have hrest := ih l₂ hall.2 hb
    constructor
    · simp [List.takeWhile_cons, hall.1, hrest.1]
    · simp [List.dropWhile_cons, hall.1, hrest.2]

/-- Consuming exactly one well-formed fragment group: `amp`, then a
non-empty run of tail characters, stopped by the continuation, consumes the
group and stops. -/
theorem consumeGroupsF_full (amp run post : List Char)
    (hrun : run.isEmpty = false) (hall : run.all tailChar = true)
    (hpost : blocksTailRun post = true)
    (hamp2 : amp.isPrefixOf post = false) :
    ∀ fuel, 1 ≤ fuel → consumeGroupsF amp fuel (amp ++ (run ++ post)) = post := by
  intro fuel hf
  obtain ⟨m, rfl⟩ : ∃ m, fuel = m + 1 := ⟨fuel - 1, by omega⟩
  have hpre : amp.isPrefixOf (amp ++ (run ++ post)) = true := by
    rw [List.isPrefixOf_iff_prefix]
    exact List.prefix_append amp (run ++ post)
  have hsplit := takeWhile_tail_append run post hall hpost
  have hdrop : (amp ++ (run ++ post)).drop amp.length = run ++ post :=
    List.drop_left amp (run ++ post)
  rw [consumeGroupsF, if_pos hpre]
  simp only [hdrop, hsplit.1, hsplit.2, hrun]
  simp only [Bool.false_eq_true, if_false]
  exact consumeGroupsF_not_pref amp post hamp2 m

/-- Decomposition of one replace pass around the first match: a region with
no match at any position, then the URL; the pass copies the region, emits
the replacement, consumes the greedy groups and continues after them. -/
theorem replacePassF_decomp (url repl amp : List Char) (hurl : url.isEmpty = false) :
    ∀ (pre : List Char) (fuel : Nat) (mid : List Char),
      pre.length + 1 ≤ fuel →
      (∀ i, i < pre.length → url.isPrefixOf ((pre ++ (url ++ mid)).drop i) = false) →
      replacePassF url repl amp fuel (pre ++ (url ++ mid))
        = pre ++ (repl ++ replacePassF url repl amp (fuel - (pre.length + 1))
            (consumeGroupsF amp mid.length mid)) := by
  intro pre
  induction pre with
  | nil =>
    intro fuel mid hf _
    obtain ⟨m, rfl⟩ : ∃ m, fuel = m + 1 := ⟨fuel - 1, by omega⟩
    obtain ⟨u, us, rfl⟩ : ∃ u us, url = u :: us := by
      cases url with
      | nil => simp at hurl
      | cons u us => exact ⟨u, us, rfl⟩
    have hpre : (u :: us).isPrefixOf (u :: (us ++ mid)) = true := by
      rw [List.isPrefixOf_iff_prefix]
      exact List.prefix_append (u :: us) mid
    have hdrop : (u :: (us ++ mid)).drop (u :: us).length = mid :=
      List.drop_left (u :: us) mid
    have hcond : (!(u :: us).isEmpty && (u :: us).isPrefixOf (u :: (us ++ mid))) = true := by
      simp [hpre]
    show replacePassF (u :: us) repl amp (m+1) (u :: (us ++ mid))
      = [] ++ (repl ++ replacePassF (u :: us) repl amp (m + 1 - ([].length + 1))
          (consumeGroupsF amp mid.length mid))
    rw [replacePassF, if_pos hcond]
    simp only [hdrop, List.nil_append, List.length_nil, Nat.zero_add, Nat.add_sub_cancel]
  | cons c pre' ih =>
    intro fuel mid hf hno
    obtain ⟨m, rfl⟩ : ∃ m, fuel = m + 1 := ⟨fuel - 1, by omega⟩
    have h0 : url.isPrefixOf (c :: (pre' ++ (url ++ mid))) = false := by
      have := hno 0 (by simp)
      simpa using this
    have hcond : (!url.isEmpty && url.isPrefixOf (c :: (pre' ++ (url ++ mid)))) = false := by
      rw [h0]
      simp
    have hstep : replacePassF url repl amp (m+1) ((c :: pre') ++ (url ++ mid))
        = c :: replacePassF url repl amp m (pre' ++ (url ++ mid)) := by
      rw [show (c :: pre') ++ (url ++ mid) = c :: (pre' ++ (url ++ mid)) from rfl]
      rw [replacePassF, if_neg (by rw [hcond]; simp)]
    rw [hstep]
    rw [ih m mid (by simp only [List.length_cons] at hf; omega) (fun i hi => by
      have := hno (i+1) (by simp only [List.length_cons]; omega)
      simpa using this)]
    have hfuel : m - (pre'.length + 1) = m + 1 - ((c :: pre').length + 1) := by
      simp only [List.length_cons]
      omega
    rw [hfuel]
    simp

/-- Decomposition of `replacePass` (fuel instantiated to the input length,
which always dominates the region length). -/
theorem replacePass_decomp (url repl amp pre mid : List Char) (hurl : url.isEmpty = false)
    (hno : ∀ i, i < pre.length → url.isPrefixOf ((pre ++ (url ++ mid)).drop i) = false) :
    replacePass url repl amp (pre ++ (url ++ mid))
      = pre ++ (repl ++ replacePassF url repl amp
          ((pre ++ (url ++ mid)).length - (pre.length + 1))
          (consumeGroupsF amp mid.length mid)) := by
  apply replacePassF_decomp url repl amp hurl pre _ mid _ hno
  cases url with
  | nil => simp at hurl
  | cons u us =>
    simp only [List.length_append, List.length_cons]
    omega

/-! ## Claim C5: query-fragment collapsing -/

/-- Counterexample to C5 as stated: an occurrence followed by a literal-`&`
query fragment is not collapsed.  The first replace pass (whose fragment
groups may be empty) already replaces the bare URL, so the plain-`&` pass
never sees the URL and the fragment survives after the replacement. -/
theorem rewriteImageUrls_literal_amp_cex :
    rewriteImageUrls "![x](https://mmbiz.qpic.cn/img/1?wx_fmt=png&tp=1)"
        ["https://mmbiz.qpic.cn/img/1?wx_fmt=png"] "https://cdn.example/pub" ["qpic.cn"]
      = "![x](https://cdn.example/pub/mmbiz_qpic_cn/img/1.png&tp=1)"
    ∧ "![x](https://cdn.example/pub/mmbiz_qpic_cn/img/1.png&tp=1)"
      ≠ "![x](https://cdn.example/pub/mmbiz_qpic_cn/img/1.png)" :=
  ⟨by decide, by decide⟩

/-- C5 (amended): every occurrence of a URL with a derivable key is replaced
by `{publicBaseUrl}/{key}`; an occurrence immediately followed by
HTML-entity-escaped query fragments (`&amp;...`) is collapsed, fragments
included, into the single replacement; an occurrence followed by literal
`&` fragments has the URL replaced but the fragments left in place (the
entity-escaped pass replaces every occurrence first, so the plain-`&`
pattern finds nothing); and the specification's entity-escaped example
rewrites to the collapsed form. -/
theorem rewriteImageUrls_collapse (url base key : String) (hosts : List String)
    (pre run post : List Char)
    (hk : toR2Key url hosts = some key)
    (hurl : url.data.isEmpty = false)
    (hrun : run.isEmpty = false) (hall : run.all tailChar = true)
    (hpost : blocksTailRun post = true) :
    ((∀ i, i < pre.length →
        url.data.isPrefixOf
          ((pre ++ (url.data ++ ("&amp;".data ++ (run ++ post)))).drop i) = false) →
      occursIn url.data post = false →
      occursIn url.data (pre ++ ((base.data ++ '/' :: key.data) ++ post)) = false →
      ("&amp;".data).isPrefixOf post = false →
      rewriteImageUrls ⟨pre ++ (url.data ++ ("&amp;".data ++ (run ++ post)))⟩ [url] base hosts
        = ⟨pre ++ ((base.data ++ '/' :: key.data) ++ post)⟩)
    ∧ ((∀ i, i < pre.length →
        url.data.isPrefixOf
          ((pre ++ (url.data ++ ('&' :: (run ++ post)))).drop i) = false) →
      ("&amp;".data).isPrefixOf ('&' :: (run ++ post)) = false →
      occursIn url.data ('&' :: (run ++ post)) = false →
      occursIn url.data (pre ++ ((base.data ++ '/' :: key.data) ++ ('&' :: (run ++ post)))) = false →
      rewriteImageUrls ⟨pre ++ (url.data ++ ('&' :: (run ++ post)))⟩ [url] base hosts
        = ⟨pre ++ ((base.data ++ '/' :: key.data) ++ ('&' :: (run ++ post)))⟩)
    ∧ rewriteImageUrls "![x](https://mmbiz.qpic.cn/img/1?wx_fmt=png&amp;tp=1)"
        ["https://mmbiz.qpic.cn/img/1?wx_fmt=png"] "https://cdn.example/pub" ["qpic.cn"]
        = "![x](https://cdn.example/pub/mmbiz_qpic_cn/img/1.png)" := by
  refine ⟨?_, ?_, by decide⟩
  · intro h1 h2 h3 h4
    have hone : rewriteOne (pre ++ (url.data ++ ("&amp;".data ++ (run ++ post))))
        url base.data hosts = pre ++ ((base.data ++ '/' :: key.data) ++ post) := by
      unfold rewriteOne
      rw [hk]
      show replacePass url.data (base.data ++ '/' :: key.data) ("&".data)
          (replacePass url.data (base.data ++ '/' :: key.data) ("&amp;".data)
            (pre ++ (url.data ++ ("&amp;".data ++ (run ++ post)))))
        = pre ++ ((base.data ++ '/' :: key.data) ++ post)
      have hmid : 1 ≤ ("&amp;".data ++ (run ++ post)).length := by
        simp [List.length_append]
      have hp1 : replacePass url.data (base.data ++ '/' :: key.data) ("&amp;".data)
          (pre ++ (url.data ++ ("&amp;".data ++ (run ++ post))))
          = pre ++ ((base.data ++ '/' :: key.data) ++ post) := by
        rw [replacePass_decomp url.data (base.data ++ '/' :: key.data) ("&amp;".data)
          pre ("&amp;".data ++ (run ++ post)) hurl h1]
        rw [consumeGroupsF_full ("&amp;".data) run post hrun hall hpost h4 _ hmid]
        rw [replacePassF_id _ _ _ _ post h2]
      rw [hp1]
      exact replacePass_id _ _ _ _ h3
    calc rewriteImageUrls ⟨pre ++ (url.data ++ ("&amp;".data ++ (run ++ post)))⟩ [url] base hosts
        = ⟨rewriteOne (pre ++ (url.data ++ ("&amp;".data ++ (run ++ post))))
            url base.data hosts⟩ := rfl
      _ = ⟨pre ++ ((base.data ++ '/' :: key.data) ++ post)⟩ := by rw [hone]
  · intro g1 g2 g3 g4
    have hone : rewriteOne (pre ++ (url.data ++ ('&' :: (run ++ post))))
        url base.data hosts
        = pre ++ ((base.data ++ '/' :: key.data) ++ ('&' :: (run ++ post))) := by
      unfold rewriteOne
      rw [hk]
      show replacePass url.data (base.data ++ '/' :: key.data) ("&".data)
          (replacePass url.data (base.data ++ '/' :: key.data) ("&amp;".data)
            (pre ++ (url.data ++ ('&' :: (run ++ post)))))
        = pre ++ ((base.data ++ '/' :: key.data) ++ ('&' :: (run ++ post)))
      have hp1 : replacePass url.data (base.data ++ '/' :: key.data) ("&amp;".data)
          (pre ++ (url.data ++ ('&' :: (run ++ post))))
          = pre ++ ((base.data ++ '/' :: key.data) ++ ('&' :: (run ++ post))) := by
        rw [replacePass_decomp url.data (base.data ++ '/' :: key.data) ("&amp;".data)
          pre ('&' :: (run ++ post)) hurl g1]
        rw [consumeGroupsF_not_pref ("&amp;".data) ('&' :: (run ++ post)) g2]
        rw [replacePassF_id _ _ _ _ ('&' :: (run ++ post)) g3]
      rw [hp1]
      exact replacePass_id _ _ _ _ g4
    calc rewriteImageUrls ⟨pre ++ (url.data ++ ('&' :: (run ++ post)))⟩ [url] base hosts
        = ⟨rewriteOne (pre ++ (url.data ++ ('&' :: (run ++ post))))
            url base.data hosts⟩ := rfl
      _ = ⟨pre ++ ((base.data ++ '/' :: key.data) ++ ('&' :: (run ++ post)))⟩ := by rw [hone]

/-- Witness for C5 at the specification's example decomposition: both the
entity-escaped fragment collapse and the literal-`&` fragment survival,
instantiated concretely. -/
theorem rewriteImageUrls_collapse_witness :
    rewriteImageUrls "![x](https://mmbiz.qpic.cn/img/1?wx_fmt=png&amp;tp=1)"
        ["https://mmbiz.qpic.cn/img/1?wx_fmt=png"] "https://cdn.example/pub" ["qpic.cn"]
      = (⟨"![x](".data ++ (("https://cdn.example/pub".data ++
          '/' :: "mmbiz_qpic_cn/img/1.png".data) ++ ")".data)⟩ : String)
    ∧ rewriteImageUrls "![x](https://mmbiz.qpic.cn/img/1?wx_fmt=png&tp=1)"
        ["https://mmbiz.qpic.cn/img/1?wx_fmt=png"] "https://cdn.example/pub" ["qpic.cn"]
      = (⟨"![x](".data ++ (("https://cdn.example/pub".data ++
          '/' :: "mmbiz_qpic_cn/img/1.png".data) ++ ('&' :: ("tp=1".data ++ ")".data)))⟩ : String) :=
  let T := rewriteImageUrls_collapse "https://mmbiz.qpic.cn/img/1?wx_fmt=png"
    "https://cdn.example/pub" "mmbiz_qpic_cn/img/1.png" ["qpic.cn"]
    ("![x](".data) ("tp=1".data) (")".data)
    (by decide) (by decide) (by decide) (by decide) (by decide)
  ⟨T.1 (by decide) (by decide) (by decide) (by decide),
   T.2.1 (by decide) (by decide) (by decide) (by decide)⟩

/-! ## Claim C6: idempotence of the rewriter -/

/-- Counterexample to C6 as stated: with a public base URL that matches
neither the allow-list nor the media-origin pattern, the rewrite is still
not idempotent — a listed URL whose path embeds another listed URL yields a
replacement that reintroduces the second URL, which only the second rewrite
then replaces. -/
theorem rewriteImageUrls_not_idempotent_cex :
    isAllowedImageHost "https://cdn.example/pub" ["qpic.cn"] = false
    ∧ scanWechat ("https://cdn.example/pub".data) = []
    ∧ rewriteImageUrls
        (rewriteImageUrls "https://a.qpic.cn/q/https://mmbiz.qpic.cn/x"
          ["https://mmbiz.qpic.cn/x.jpg", "https://a.qpic.cn/q/https://mmbiz.qpic.cn/x"]
          "https://cdn.example/pub" ["qpic.cn"])
        ["https://mmbiz.qpic.cn/x.jpg", "https://a.qpic.cn/q/https://mmbiz.qpic.cn/x"]
        "https://cdn.example/pub" ["qpic.cn"]
      ≠ rewriteImageUrls "https://a.qpic.cn/q/https://mmbiz.qpic.cn/x"
          ["https://mmbiz.qpic.cn/x.jpg", "https://a.qpic.cn/q/https://mmbiz.qpic.cn/x"]
          "https://cdn.example/pub" ["qpic.cn"] :=
  ⟨by decide, by decide, by decide⟩

/-- A URL loop iteration is the identity when the URL either derives no key
or no longer occurs in the text. -/
theorem rewriteOne_id (s : List Char) (u : String) (b : List Char) (hosts : List String)
    (h : toR2Key u hosts ≠ none → occursIn u.data s = false) :
    rewriteOne s u b hosts = s := by
  unfold rewriteOne
  cases hk : toR2Key u hosts with
  | none => rfl
  | some k =>
    have ho : occursIn u.data s = false := h (by simp [hk])
    show replacePass u.data (b ++ '/' :: k.data) ("&".data)
        (replacePass u.data (b ++ '/' :: k.data) ("&amp;".data) s) = s
    rw [replacePass_id _ _ _ _ ho]
    exact replacePass_id _ _ _ _ ho

/-- Folding the URL loop over a text in which no listed key-deriving URL
occurs is the identity. -/
theorem foldl_rewriteOne_id (b : List Char) (hosts : List String) :
    ∀ (l : List String) (s : List Char),
      (∀ u ∈ l, toR2Key u hosts ≠ none → occursIn u.data s = false) →
      l.foldl (fun acc u => rewriteOne acc u b hosts) s = s := by
  intro l
  induction l with
  | nil => intro s _; rfl
  | cons x xs ih =>
    intro s h
    have hx : rewriteOne s x b hosts = s :=
      rewriteOne_id s x b hosts (h x (by simp))
    show xs.foldl (fun acc u => rewriteOne acc u b hosts) (rewriteOne s x b hosts) = s
    rw [hx]
    exact ih s (fun u hu => h u (by simp [hu]))

/-- C6 (amended): the rewrite is idempotent provided no listed URL with a
derivable key occurs in the once-rewritten text — in particular whenever
neither the public base URL nor any replacement key reintroduces a listed
URL.  (The original proviso, that the base URL not match the allow-list
pattern, is not sufficient: see the counterexample.) -/
theorem rewriteImageUrls_idempotent (text : String) (urls : List String)
    (base : String) (hosts : List String)
    (h : ∀ u ∈ urls, toR2Key u hosts ≠ none →
        occursIn u.data (rewriteImageUrls text urls base hosts).data = false) :
    rewriteImageUrls (rewriteImageUrls text urls base hosts) urls base hosts
      = rewriteImageUrls text urls base hosts := by
  cases hu : urls with
  | nil => simp [rewriteImageUrls]
  | cons x xs =>
    rw [← hu]
    have hstep : rewriteImageUrls (rewriteImageUrls text urls base hosts) urls base hosts
        = ⟨urls.foldl (fun acc u => rewriteOne acc u base.data hosts)
            (rewriteImageUrls text urls base hosts).data⟩ := by
      rw [hu]
      rfl
    rw [hstep, foldl_rewriteOne_id base.data hosts urls
      (rewriteImageUrls text urls base hosts).data h]

/-- Witness for C6 on a concrete rewrite whose output contains no listed
URL. -/
theorem rewriteImageUrls_idempotent_witness :
    rewriteImageUrls (rewriteImageUrls "see https://mmbiz.qpic.cn/img/2?wx_fmt=png ok"
        ["https://mmbiz.qpic.cn/img/2?wx_fmt=png"] "https://cdn.example/pub" ["qpic.cn"])
      ["https://mmbiz.qpic.cn/img/2?wx_fmt=png"] "https://cdn.example/pub" ["qpic.cn"]
      = rewriteImageUrls "see https://mmbiz.qpic.cn/img/2?wx_fmt=png ok"
        ["https://mmbiz.qpic.cn/img/2?wx_fmt=png"] "https://cdn.example/pub" ["qpic.cn"] :=
  rewriteImageUrls_idempotent "see https://mmbiz.qpic.cn/img/2?wx_fmt=png ok"
    ["https://mmbiz.qpic.cn/img/2?wx_fmt=png"] "https://cdn.example/pub" ["qpic.cn"]
    (by decide)

/-! ## Claim C7: extractor output -/

/-- Membership in the first-occurrence deduplication. -/
theorem mem_dedupFirstAux (x : List Char) :
    ∀ (l seen : List (List Char)),
      x ∈ dedupFirstAux seen l ↔ x ∈ l ∧ x ∉ seen := by
  intro l
  induction l with
  | nil => intro seen; simp [dedupFirstAux]
  | cons y ys ih =>
    intro seen
    by_cases hy : seen.contains y = true
    · have hymem : y ∈ seen := by
        simpa using hy
      rw [show dedupFirstAux seen (y :: ys) = dedupFirstAux seen ys from by
        unfold dedupFirstAux
        rw [if_pos hy]
        cases ys <;> rfl]
      rw [ih seen]
      constructor
      · rintro ⟨h1, h2⟩
        exact ⟨List.mem_cons_of_mem _ h1, h2⟩
      · rintro ⟨h1, h2⟩
        rcases List.mem_cons.mp h1 with rfl | h3
        · exact absurd hymem h2
        · exact ⟨h3, h2⟩
    · have hynot : y ∉ seen := by
        intro hmem
        exact hy (by simpa using hmem)
      rw [show dedupFirstAux seen (y :: ys) = y :: dedupFirstAux (y :: seen) ys from by
        unfold dedupFirstAux
        rw [if_neg hy]
        cases ys <;> rfl]
      constructor
      · intro h1
        rcases List.mem_cons.mp h1 with rfl | h3
        · exact ⟨List.mem_cons_self _ _, hynot⟩
        · have := (ih (y :: seen)).mp h3
          refine ⟨List.mem_cons_of_mem _ this.1, ?_⟩
          intro hc
          exact this.2 (List.mem_cons_of_mem _ hc)
      · rintro ⟨h1, h2⟩
        rcases List.mem_cons.mp h1 with rfl | h3
        · exact List.mem_cons_self _ _
        · by_cases hxy : x = y
          · subst hxy
            exact List.mem_cons_self _ _
          · refine List.mem_cons_of_mem _ ((ih (y :: seen)).mpr ⟨h3, ?_⟩)
            intro hc
            rcases List.mem_cons.mp hc with h4 | h5
            · exact hxy h4
            · exact h2 h5

/-- Counterexample to C7 as stated: two raw matches that differ only in a
trailing trim character survive deduplication (performed before trimming)
and trim to the same string, so the output contains duplicates. -/
theorem collectImageUrls_duplicates_cex :
    collectImageUrls "x https://mmbiz.qpic.cn/a. y https://mmbiz.qpic.cn/a" ""
      = ["https://mmbiz.qpic.cn/a", "https://mmbiz.qpic.cn/a"]
    ∧ ¬ (collectImageUrls "x https://mmbiz.qpic.cn/a. y https://mmbiz.qpic.cn/a" "").Nodup :=
  ⟨by decide, by decide⟩

/-- C7 (amended): as a set, the extractor's output is exactly the union of
the pattern matches of both inputs with trailing punctuation trimmed; the
deduplication is performed on the raw matches before trimming, so the
returned list itself may contain duplicate strings. -/
theorem collectImageUrls_set (html markdown : String) :
    (collectImageUrls html markdown).toFinset
      = (((scanWechat html.data ++ scanWechat markdown.data).map trimTrailing).map
          (fun l => (⟨l⟩ : String))).toFinset := by
  ext a
  simp only [List.mem_toFinset, collectImageUrls, List.mem_map]
  constructor
  · rintro ⟨l, ⟨r, hr, rfl⟩, rfl⟩
    exact ⟨trimTrailing r, ⟨r, ((mem_dedupFirstAux r _ _).mp hr).1, rfl⟩, rfl⟩
  · rintro ⟨l, ⟨r, hr, rfl⟩, rfl⟩
    exact ⟨trimTrailing r, ⟨r, (mem_dedupFirstAux r _ _).mpr ⟨hr, by simp⟩, rfl⟩, rfl⟩
